import Mathlib

/-!
Verification development for the bulk notification dispatch engine of the
Secureme repository.  The definitions below are a shallow embedding of the
TypeScript route handlers, chiefly `src/app/api/bulk-email/route.tsx`
(the bulk dispatch handler) and `src/app/api/send-email2/route.tsx`
(the single-send handler with bearer-token gating).

Modelling conventions:
* `process.env` becomes the `Env` structure of optional strings.
* The JSON request body becomes `BulkRequest` / `SendRequest`; a field that
  may be absent in JSON is an `Option`.
* The delivery boundary (`transporter.sendMail`) becomes an oracle
  `ok : Nat → String → Bool` giving the outcome of attempting a given
  recipient with the SMTP account at a given index; an exception in the
  source corresponds to `ok i e = false`.
* The mutable `emailList` array is a `List (Nat × String)`: the `Nat` is a
  ghost identifier (the position of the entry in the normalized list) used
  only to state trace properties; the handler itself reads only the string.
* Every observable action of the loop (starting a batch, a delivery
  attempt, the 60-second inter-batch sleep) is recorded as an `Event`.
* String primitives of JavaScript (`split`, `trim`, `includes`) are
  implemented over character lists so the kernel can evaluate them.
-/

namespace Secureme

/-- Delimiter class of the split regex `/[\n,; ]+/` in the bulk handler. -/
def isDelim (c : Char) : Bool :=
  c = '\n' || c = ',' || c = ';' || c = ' '

/-- Split a character list at every character satisfying `p`.  Semantics of
`String.split`, implemented structurally so the kernel can evaluate it.
The regex quantifier `+` of the source's `split(/[\n,; ]+/)` additionally
collapses runs of delimiters; that difference only produces extra empty
fragments here, all of which the subsequent `includes("@")` filter of the
handler discards, so the normalized list is unaffected. -/
def splitChars (p : Char → Bool) : List Char → List (List Char)
  | [] => [[]]
  | c :: cs =>
    if p c then
      [] :: splitChars p cs
    else
      match splitChars p cs with
      | [] => [[c]]
      | g :: gs => (c :: g) :: gs

/-- `String.split` over a delimiter class, via `splitChars`. -/
def jsSplit (p : Char → Bool) (s : String) : List String :=
  (splitChars p s.toList).map List.asString

/-- JavaScript `String.prototype.trim`: strip leading and trailing
whitespace. -/
def jsTrim (s : String) : String :=
  (((s.toList.dropWhile Char.isWhitespace).reverse.dropWhile
    Char.isWhitespace).reverse).asString

/-- JavaScript `e.includes("@")`: the string contains the character. -/
def jsContainsAt (s : String) : Bool :=
  s.toList.any (fun c => c = '@')

/-- The `emails` field of the bulk request body: a string, an array of
strings, or absent. -/
inductive EmailsInput where
  | str (s : String)
  | arr (l : List String)
  | missing
deriving DecidableEq

/-- JavaScript truthiness test `!emails` used by the handler's first guard:
`undefined`/`null` and the empty string are falsy; every array is truthy. -/
def emailsFalsy : EmailsInput → Bool
  | .missing => true
  | .str s => s = ""
  | .arr _ => false

/-- The `emailList` computation of the bulk handler: an array input is
filtered by `includes("@")`; a string input is split on `/[\n,; ]+/`,
trimmed, and filtered by `includes("@")`. -/
def normalizeEmails : EmailsInput → List String
  | .missing => []
  | .str s => ((jsSplit isDelim s).map jsTrim).filter (fun e => jsContainsAt e)
  | .arr l => l.filter (fun e => jsContainsAt e)

/-- An SMTP account: the `{ user, pass }` pairs of the handler. -/
structure Credential where
  user : String
  pass : String
deriving DecidableEq

/-- The environment variables read by the two route handlers. -/
structure Env where
  smtpUser1 : Option String
  smtpPass1 : Option String
  smtpUser2 : Option String
  smtpPass2 : Option String
  smtpUser3 : Option String
  smtpPass3 : Option String
  smtpUser : Option String
  smtpPass : Option String
  apiAuthToken : Option String
deriving DecidableEq

/-- One `{ user, pass }` candidate of the bulk handler's account list; the
filter `acc.user && acc.pass` keeps it only when both variables are present
and non-empty (the empty string is falsy in JavaScript). -/
def envPair (u p : Option String) : Option Credential :=
  match u, p with
  | some us, some ps => if us = "" || ps = "" then none else some ⟨us, ps⟩
  | _, _ => none

/-- The `smtpAccounts` array of the bulk handler. -/
def smtpAccounts (env : Env) : List Credential :=
  [envPair env.smtpUser1 env.smtpPass1,
   envPair env.smtpUser2 env.smtpPass2,
   envPair env.smtpUser3 env.smtpPass3].filterMap id

/-- Observable events of one dispatch run, in order of occurrence. -/
inductive Event where
  | batch (entries : List (Nat × String)) (accountIndex : Nat)
  | attempt (id : Nat) (email : String) (accountIndex : Nat) (success : Bool)
  | delay
deriving DecidableEq

/-- Result of the `for (const email of batch)` loop body of the bulk
handler: increments to the two counters, the account index after the loop,
the email the loop pushed back via `unshift` (if any), and the attempts
made. -/
structure BatchResult where
  sentInc : Nat
  failedInc : Nat
  idx2 : Nat
  requeue : Option (Nat × String)
  evs : List Event
deriving DecidableEq

/-- The inner `for` loop of the bulk handler over one batch, using the
account at index `idx` of the `n` configured accounts.  A successful
attempt increments `sentCount`; a failed attempt either rotates to the
next account, re-queues the email and `break`s out of the batch (dropping
the unprocessed remainder of the batch), or (when no further account
exists) increments `failedCount` and continues. -/
def processBatch (ok : Nat → String → Bool) (n : Nat) (idx : Nat) :
    List (Nat × String) → BatchResult
  | [] => ⟨0, 0, idx, none, []⟩
  | (i, e) :: rest =>
    if ok idx e then
      let r := processBatch ok n idx rest
      ⟨r.sentInc + 1, r.failedInc, r.idx2, r.requeue, .attempt i e idx true :: r.evs⟩
    else if idx < n - 1 then
      ⟨0, 0, idx + 1, some (i, e), [.attempt i e idx false]⟩
    else
      let r := processBatch ok n idx rest
      ⟨r.sentInc, r.failedInc + 1, r.idx2, r.requeue, .attempt i e idx false :: r.evs⟩

/-- Aggregate outcome of the `while` loop of the bulk handler. -/
structure RunResult where
  sent : Nat
  failed : Nat
  events : List Event
deriving DecidableEq

/-- The `while (emailList.length > 0)` loop of the bulk handler.
Each iteration splices off the first two entries as a batch, runs the
inner loop with the current account, re-queues (`unshift`) a rotated email
at the head of the remaining list, and sleeps 60 seconds (`Event.delay`)
whenever the remaining list is non-empty. -/
def runLoop (ok : Nat → String → Bool) (n : Nat)
    (pending : List (Nat × String)) (idx : Nat) : RunResult :=
  match pending with
  | [] => ⟨0, 0, []⟩
  | e :: rest0 =>
    let batch := (e :: rest0).take 2
    let rest := (e :: rest0).drop 2
    let b := processBatch ok n idx batch
    match hrq : b.requeue with
    | some en =>
      let r := runLoop ok n (en :: rest) b.idx2
      ⟨b.sentInc + r.sent, b.failedInc + r.failed,
        .batch batch idx :: (b.evs ++ .delay :: r.events)⟩
    | none =>
      let r := runLoop ok n rest b.idx2
      ⟨b.sentInc + r.sent, b.failedInc + r.failed,
        .batch batch idx :: (b.evs ++ (if rest.isEmpty then [] else [.delay]) ++ r.events)⟩
termination_by pending.length * (n + 1) + (n - idx)
decreasing_by
  · have key : ∀ (l : List (Nat × String)),
        (processBatch ok n idx l).requeue = some en →
        (processBatch ok n idx l).idx2 = idx + 1 ∧ idx < n - 1 := by
      intro l
      induction l with
      | nil => intro h; simp [processBatch] at h
      | cons hd tl ih =>
        intro h
        obtain ⟨i, em⟩ := hd
        by_cases hok : ok idx em
        · simp only [processBatch, hok, if_pos] at h ⊢
          exact ih h
        · by_cases hrot : idx < n - 1
          · simp [processBatch, hok, hrot]
          · have hh : (processBatch ok n idx ((i, em) :: tl)).requeue =
                (processBatch ok n idx tl).requeue := by
              simp [processBatch, hok, hrot]
            have hi : (processBatch ok n idx ((i, em) :: tl)).idx2 =
                (processBatch ok n idx tl).idx2 := by
              simp [processBatch, hok, hrot]
            rw [hh] at h
            rw [hi]
            exact ih h
    obtain ⟨h1, h2⟩ := key _ hrq
    simp only [h1, List.length_cons, List.length_drop]
    generalize rest0.length = L
    rcases L with _ | L
    · omega
    · have e1 : (L + 1 + 1 - 2 + 1) = L + 1 := by omega
      have e2 : (L + 1 + 1) * (n + 1) = (L + 1) * (n + 1) + (n + 1) := by ring
      rw [e1, e2]
      omega
  · have key : ∀ (l : List (Nat × String)),
        (processBatch ok n idx l).requeue = none →
        (processBatch ok n idx l).idx2 = idx := by
      intro l
      induction l with
      | nil => intro _; simp [processBatch]
      | cons hd tl ih =>
        intro h
        obtain ⟨i, em⟩ := hd
        by_cases hok : ok idx em
        · simp only [processBatch, hok, if_pos] at h ⊢
          exact ih h
        · by_cases hrot : idx < n - 1
          · simp [processBatch, hok, hrot] at h
          · have hh : (processBatch ok n idx ((i, em) :: tl)).requeue =
                (processBatch ok n idx tl).requeue := by
              simp [processBatch, hok, hrot]
            have hi : (processBatch ok n idx ((i, em) :: tl)).idx2 =
                (processBatch ok n idx tl).idx2 := by
              simp [processBatch, hok, hrot]
            rw [hh] at h
            rw [hi]
            exact ih h
    have h1 := key _ hrq
    simp only [h1, List.length_cons, List.length_drop]
    generalize rest0.length = L
    rcases L with _ | L
    · omega
    · have e1 : (L + 1 + 1 - 2) = L := by omega
      have e2 : (L + 1 + 1) * (n + 1) = L * (n + 1) + 2 * (n + 1) := by ring
      rw [e1, e2]
      omega

/-- Fuel-indexed evaluator for `runLoop`; computes by structural recursion
so that concrete runs can be evaluated by the kernel.  `runLoopF_eq_runLoop`
shows it agrees with `runLoop` whenever the fuel dominates the loop
measure. -/
def runLoopF (ok : Nat → String → Bool) (n : Nat) :
    Nat → List (Nat × String) → Nat → RunResult
  | 0, _, _ => ⟨0, 0, []⟩
  | _ + 1, [], _ => ⟨0, 0, []⟩
  | fuel + 1, e :: rest0, idx =>
    let batch := (e :: rest0).take 2
    let rest := (e :: rest0).drop 2
    let b := processBatch ok n idx batch
    match b.requeue with
    | some en =>
      let r := runLoopF ok n fuel (en :: rest) b.idx2
      ⟨b.sentInc + r.sent, b.failedInc + r.failed,
        .batch batch idx :: (b.evs ++ .delay :: r.events)⟩
    | none =>
      let r := runLoopF ok n fuel rest b.idx2
      ⟨b.sentInc + r.sent, b.failedInc + r.failed,
        .batch batch idx :: (b.evs ++ (if rest.isEmpty then [] else [.delay]) ++ r.events)⟩

/-- The dispatch loop of the bulk handler, evaluated with provably
sufficient fuel (`runEmails_eq_runLoop` shows the fuel never runs out). -/
def runEmails (ok : Nat → String → Bool) (n : Nat)
    (pending : List (Nat × String)) (idx : Nat) : RunResult :=
  runLoopF ok n (pending.length * (n + 1) + (n + 1)) pending idx

/-- The `data` object the bulk request may carry (the handler never reads
it). -/
structure TemplateData where
  title : Option String
  message : Option String
  ctaLink : Option String
  ctaText : Option String
deriving DecidableEq

/-- The JSON body and headers of a POST to `/api/bulk-email`. -/
structure BulkRequest where
  emails : EmailsInput
  subject : Option String
  data : Option TemplateData
  authHeader : Option String
deriving DecidableEq

/-- Props of `MarketingTemplate` (src/components/email-templates/MarketingTemplate.tsx). -/
structure MarketingProps where
  title : String
  message : String
  ctaText : String
  ctaLink : String
deriving DecidableEq

/-- The default props of `MarketingTemplate`, used because the bulk handler
renders `<MarketingTemplate />` with no props. -/
def defaultMarketingProps : MarketingProps where
  title := "Earn Daily Profits with Smart S9"
  message := "At Smart S9 Trading, our fully automated trading system analyzes the crypto market in real-time, executes profitable trades, and sends instant payouts directly to your wallet — no manual trading experience required."
  ctaText := "Start Trading Now"
  ctaLink := "https://smarts9.com/dashboard"

/-- The fixed subject line of the bulk handler. -/
def bulkSubject : String := "New Investment Opportunity"

/-- One argument record of a `transporter.sendMail` call in the bulk
handler. -/
structure Message where
  sender : String
  toAddr : String
  subject : String
  html : String
deriving DecidableEq

/-- The `sendMail` payload produced for a delivery attempt:
`from` is built from the account's user, `subject` and `html` are the
run-constant values computed before the loop. -/
def attemptMessage (render : MarketingProps → String)
    (accounts : List Credential) : Event → Option Message
  | .attempt _ e a _ =>
    some ⟨"\"Smart S9Trading\" <" ++ (((accounts.get? a).map Credential.user).getD "") ++ ">",
      e, bulkSubject, render defaultMarketingProps⟩
  | _ => none

/-- Observable outcome of one POST to `/api/bulk-email`: HTTP status, the
JSON body fields, and the trace of deliveries/sleeps performed. -/
structure BulkOutcome where
  status : Nat
  success : Bool
  error : Option String
  sent : Option Nat
  failed : Option Nat
  events : List Event
  messages : List Message
deriving DecidableEq

/-- The POST handler of `src/app/api/bulk-email/route.tsx`.
`render` is the opaque `render(<MarketingTemplate />)` collaborator and
`ok` the delivery oracle.  Note that the handler reads nothing of the
request beyond `emails` (in particular no `Authorization` header and no
`subject`/`data` fields), and reads only the six `SMTP_USER*`/`SMTP_PASS*`
variables of the environment. -/
def bulkPOST (render : MarketingProps → String) (env : Env)
    (ok : Nat → String → Bool) (req : BulkRequest) : BulkOutcome :=
  if emailsFalsy req.emails then
    ⟨400, false, some "Missing emails", none, none, [], []⟩
  else
    let emailList := normalizeEmails req.emails
    if emailList.isEmpty then
      ⟨400, false, some "No valid email addresses provided", none, none, [], []⟩
    else
      let accounts := smtpAccounts env
      if accounts.isEmpty then
        ⟨500, false, some "No SMTP accounts configured", none, none, [], []⟩
      else
        let r := runEmails ok accounts.length emailList.enum 0
        ⟨200, true, none, some r.sent, some r.failed, r.events,
          r.events.filterMap (attemptMessage render accounts)⟩

/-- The JSON body and `Authorization` header of a POST to
`/api/send-email2`. -/
structure SendRequest where
  authHeader : Option String
  toAddr : Option String
  subject : Option String
  html : Option String
  text : Option String
deriving DecidableEq

/-- Observable outcome of one POST to `/api/send-email2`: HTTP status,
the `success` flag, and whether `sendMail` was reached at all. -/
structure SendOutcome where
  status : Nat
  success : Bool
  sendAttempted : Bool
deriving DecidableEq

/-- JavaScript falsiness of an optional string (absent or empty). -/
def optFalsy : Option String → Bool
  | none => true
  | some s => s = ""

/-- The POST handler of `src/app/api/send-email2/route.tsx`.  The expected
header value is the template string `Bearer ${AUTH_TOKEN}`, which
interpolates the literal `"undefined"` when `API_AUTH_TOKEN` is unset.
`deliverOk` is the outcome of the single `sendMail` call. -/
def sendEmail2POST (env : Env) (deliverOk : Bool) (req : SendRequest) :
    SendOutcome :=
  let expected := "Bearer " ++ (env.apiAuthToken.getD "undefined")
  if optFalsy req.authHeader || req.authHeader ≠ some expected then
    ⟨401, false, false⟩
  else if optFalsy req.toAddr || optFalsy req.subject || optFalsy req.html then
    ⟨400, false, false⟩
  else if optFalsy env.smtpUser || optFalsy env.smtpPass then
    ⟨500, false, false⟩
  else if deliverOk then
    ⟨200, true, true⟩
  else
    ⟨500, false, true⟩

/-- Modelled from the spec: the address invariant of §3 — "contains
exactly one `@` preceded and followed by non-empty segments".  Used only
to compare the spec's validity predicate against the code's admission
check; the code itself tests `includes("@")`. -/
def specValidAddress (s : String) : Bool :=
  match splitChars (fun c => c = '@') s.toList with
  | [l, r] => !l.isEmpty && !r.isEmpty
  | _ => false

/-- Account indices of the delivery attempts for the entry with ghost id
`i`, in trace order. -/
def attemptIdxs (i : Nat) (evs : List Event) : List Nat :=
  evs.filterMap fun ev =>
    match ev with
    | .attempt j _ a _ => if j = i then some a else none
    | _ => none

/-- Account indices of the batch events of a trace, in trace order. -/
def batchIdxs (evs : List Event) : List Nat :=
  evs.filterMap fun ev =>
    match ev with
    | .batch _ a => some a
    | _ => none

/-- Number of delivery attempts addressed to `email` using the account at
index `acct`. -/
def attemptsTo (email : String) (acct : Nat) (evs : List Event) : Nat :=
  (evs.filter fun ev =>
    match ev with
    | .attempt _ e a _ => e = email && a = acct
    | _ => false).length

/-- Fixture: environment configuring exactly one SMTP account. -/
def envOneAccount : Env :=
  ⟨some "u1", some "p1", none, none, none, none, none, none, none⟩

/-- Fixture: environment configuring exactly two SMTP accounts. -/
def envTwoAccounts : Env :=
  ⟨some "u1", some "p1", some "u2", some "p2", none, none, none, none, none⟩

/-- Fixture: one SMTP account plus a configured `API_AUTH_TOKEN`. -/
def envWithToken : Env :=
  ⟨some "u1", some "p1", none, none, none, none, none, none, some "sekret"⟩

/-- Fixture: a stand-in for the opaque template renderer. -/
def renderStub : MarketingProps → String := fun _ => "markup"

/-- Fixture: delivery oracle on which every attempt succeeds. -/
def alwaysOk : Nat → String → Bool := fun _ _ => true

/-- Fixture: delivery oracle on which every attempt fails. -/
def alwaysFail : Nat → String → Bool := fun _ _ => false

/-- Fixture: delivery oracle failing exactly for account 0 on
`e1@x.com`, succeeding otherwise. -/
def failE1onAcct0 : Nat → String → Bool :=
  fun i e => !(i = 0 && e = "e1@x.com")

theorem processBatch_requeue_some {ok : Nat → String → Bool} {n idx : Nat}
    {l : List (Nat × String)} {en : Nat × String}
    (h : (processBatch ok n idx l).requeue = some en) :
    (processBatch ok n idx l).idx2 = idx + 1 ∧ idx < n - 1 := by
  induction l with
  | nil => simp [processBatch] at h
  | cons hd tl ih =>
    obtain ⟨i, e⟩ := hd
    by_cases hok : ok idx e
    · simp only [processBatch, hok, if_pos] at h ⊢
      exact ih h
    · by_cases hrot : idx < n - 1
      · simp [processBatch, hok, hrot]
      · have hh : (processBatch ok n idx ((i, e) :: tl)).requeue =
            (processBatch ok n idx tl).requeue := by
          simp [processBatch, hok, hrot]
        have hi : (processBatch ok n idx ((i, e) :: tl)).idx2 =
            (processBatch ok n idx tl).idx2 := by
          simp [processBatch, hok, hrot]
        rw [hh] at h
        rw [hi]
        exact ih h

theorem processBatch_requeue_none {ok : Nat → String → Bool} {n idx : Nat}
    {l : List (Nat × String)}
    (h : (processBatch ok n idx l).requeue = none) :
    (processBatch ok n idx l).idx2 = idx := by
  induction l with
  | nil => simp [processBatch]
  | cons hd tl ih =>
    obtain ⟨i, e⟩ := hd
    by_cases hok : ok idx e
    · simp only [processBatch, hok, if_pos] at h ⊢
      exact ih h
    · by_cases hrot : idx < n - 1
      · simp [processBatch, hok, hrot] at h
      · have hh : (processBatch ok n idx ((i, e) :: tl)).requeue =
            (processBatch ok n idx tl).requeue := by
          simp [processBatch, hok, hrot]
        have hi : (processBatch ok n idx ((i, e) :: tl)).idx2 =
            (processBatch ok n idx tl).idx2 := by
          simp [processBatch, hok, hrot]
        rw [hh] at h
        rw [hi]
        exact ih h

/-- Arithmetic fact behind termination of `runLoop` in the rotation case. -/
theorem measure_dec_some (L n idx : Nat) (h : idx < n - 1) :
    (L + 1 - 2 + 1) * (n + 1) + (n - (idx + 1)) < (L + 1) * (n + 1) + (n - idx) := by
  rcases L with _ | L
  · omega
  · have e1 : (L + 1 + 1 - 2 + 1) = L + 1 := by omega
    have e2 : (L + 1 + 1) * (n + 1) = (L + 1) * (n + 1) + (n + 1) := by ring
    rw [e1, e2]
    omega

/-- Arithmetic fact behind termination of `runLoop` in the no-rotation case. -/
theorem measure_dec_none (L n idx : Nat) :
    (L + 1 - 2) * (n + 1) + (n - idx) < (L + 1) * (n + 1) + (n - idx) := by
  rcases L with _ | L
  · omega
  · have e1 : (L + 1 + 1 - 2) = L := by omega
    have e2 : (L + 1 + 1) * (n + 1) = L * (n + 1) + 2 * (n + 1) := by ring
    rw [e1, e2]
    omega

theorem runLoopF_eq_runLoop (ok : Nat → String → Bool) (n : Nat) :
    ∀ (fuel : Nat) (pending : List (Nat × String)) (idx : Nat),
      pending.length * (n + 1) + (n - idx) ≤ fuel →
      runLoopF ok n fuel pending idx = runLoop ok n pending idx := by
  intro fuel
  induction fuel with
  | zero =>
    intro pending idx h
    match pending with
    | [] =>
      rw [runLoop]
      rfl
    | e :: rest0 =>
      exfalso
      have hp : 0 < (e :: rest0).length * (n + 1) :=
        Nat.mul_pos (by simp) (by omega)
      omega
  | succ fuel ih =>
    intro pending idx h
    match pending with
    | [] =>
      rw [runLoop]
      rfl
    | e :: rest0 =>
      rw [runLoop, runLoopF]
      rcases hrq : (processBatch ok n idx ((e :: rest0).take 2)).requeue with _ | en
      · have h1 := processBatch_requeue_none hrq
        have hm := measure_dec_none rest0.length n idx
        have := ih ((e :: rest0).drop 2) (processBatch ok n idx ((e :: rest0).take 2)).idx2
          (by simp only [h1, List.length_drop, List.length_cons] at *; omega)
        simp only [this]
      · obtain ⟨h1, h2⟩ := processBatch_requeue_some hrq
        have hm := measure_dec_some rest0.length n idx h2
        have := ih (en :: (e :: rest0).drop 2)
          (processBatch ok n idx ((e :: rest0).take 2)).idx2
          (by simp only [h1, List.length_drop, List.length_cons] at *; omega)
        simp only [this]

theorem runEmails_eq_runLoop (ok : Nat → String → Bool) (n : Nat)
    (pending : List (Nat × String)) (idx : Nat) :
    runEmails ok n pending idx = runLoop ok n pending idx := by
  apply runLoopF_eq_runLoop
  have : n - idx ≤ n + 1 := by omega
  omega

/-- C1: the conservation claim `sent + failed = |normalized recipient set|`
fails on the code.  With two configured accounts and a delivery failure for
the first recipient on account 0, the handler rotates, re-queues the first
recipient and `break`s out of the batch, silently dropping the second
recipient: the run returns `200` with `sent = 1`, `failed = 0` although the
normalized list has 2 entries. -/
theorem C1_conservation_failing_run :
    (normalizeEmails (.str "e1@x.com,e2@x.com")).length = 2 ∧
    (bulkPOST renderStub envTwoAccounts failE1onAcct0
      ⟨.str "e1@x.com,e2@x.com", none, none, none⟩).status = 200 ∧
    (bulkPOST renderStub envTwoAccounts failE1onAcct0
      ⟨.str "e1@x.com,e2@x.com", none, none, none⟩).sent = some 1 ∧
    (bulkPOST renderStub envTwoAccounts failE1onAcct0
      ⟨.str "e1@x.com,e2@x.com", none, none, none⟩).failed = some 0 ∧
    1 + 0 ≠ (normalizeEmails (.str "e1@x.com,e2@x.com")).length := by
  decide

/-- C2: when every delivery attempt with every credential fails, the run
does complete with `200`/`success: true` and `sent = 0`, but
`failed ≠ |normalized recipient set|`: with two accounts and two
recipients the rotation on the first failure drops the second recipient,
so the handler reports `failed = 1` for 2 recipients. -/
theorem C2_exhaustion_failing_run :
    (normalizeEmails (.str "e1@x.com,e2@x.com")).length = 2 ∧
    (bulkPOST renderStub envTwoAccounts alwaysFail
      ⟨.str "e1@x.com,e2@x.com", none, none, none⟩).status = 200 ∧
    (bulkPOST renderStub envTwoAccounts alwaysFail
      ⟨.str "e1@x.com,e2@x.com", none, none, none⟩).success = true ∧
    (bulkPOST renderStub envTwoAccounts alwaysFail
      ⟨.str "e1@x.com,e2@x.com", none, none, none⟩).sent = some 0 ∧
    (bulkPOST renderStub envTwoAccounts alwaysFail
      ⟨.str "e1@x.com,e2@x.com", none, none, none⟩).failed = some 1 := by
  decide

/-- C3 counterexample: normalization does not deduplicate — `a@x.com`
supplied twice contributes two entries — so the claimed end-to-end result
`sent = 2` is false for the claim's own input: the run sends 3. -/
theorem C3_counterexample_dedup :
    (normalizeEmails (.str "a@x.com,a@x.com,bad,b@y.com")).count "a@x.com" = 2 ∧
    (bulkPOST renderStub envOneAccount alwaysOk
      ⟨.str "a@x.com,a@x.com,bad,b@y.com", none,
       some ⟨some "T", some "M", none, none⟩, none⟩).sent ≠ some 2 := by
  decide

/-- C3 (amended): normalization keeps one entry per occurrence (no set
semantics); the request
`{emails: "a@x.com,a@x.com,bad,b@y.com", template: "marketing",
data: {title: "T", message: "M"}}` with one always-succeeding credential
yields `{success: true, sent: 3, failed: 0}`. -/
theorem C3_no_dedup_run :
    (bulkPOST renderStub envOneAccount alwaysOk
      ⟨.str "a@x.com,a@x.com,bad,b@y.com", none,
       some ⟨some "T", some "M", none, none⟩, none⟩).status = 200 ∧
    (bulkPOST renderStub envOneAccount alwaysOk
      ⟨.str "a@x.com,a@x.com,bad,b@y.com", none,
       some ⟨some "T", some "M", none, none⟩, none⟩).success = true ∧
    (bulkPOST renderStub envOneAccount alwaysOk
      ⟨.str "a@x.com,a@x.com,bad,b@y.com", none,
       some ⟨some "T", some "M", none, none⟩, none⟩).sent = some 3 ∧
    (bulkPOST renderStub envOneAccount alwaysOk
      ⟨.str "a@x.com,a@x.com,bad,b@y.com", none,
       some ⟨some "T", some "M", none, none⟩, none⟩).failed = some 0 := by
  decide

/-- C4 counterexample: because normalization keeps duplicates, the same
address can be attempted twice against the same credential: with input
`"a@x.com,a@x.com"` and one account, the address `a@x.com` is attempted
twice with account 0. -/
theorem C4_counterexample_duplicate_attempts :
    attemptsTo "a@x.com" 0 (bulkPOST renderStub envOneAccount alwaysOk
      ⟨.str "a@x.com,a@x.com", none, none, none⟩).events = 2 := by
  decide

/-- C5 counterexample: after the failed attempt for `e1@x.com` on
account 0 the handler rotates and re-queues the recipient, but the retry
with account 1 happens only after the inter-batch `Event.delay` (the
re-queued email makes `emailList` non-empty, so the 60-second sleep runs
before the next iteration) — contradicting "the retry does not wait for
the inter-batch pacing delay". -/
theorem C5_counterexample_delay_before_retry :
    (bulkPOST renderStub envTwoAccounts failE1onAcct0
      ⟨.str "e1@x.com,e2@x.com", none, none, none⟩).events =
      [.batch [(0, "e1@x.com"), (1, "e2@x.com")] 0,
       .attempt 0 "e1@x.com" 0 false,
       .delay,
       .batch [(0, "e1@x.com")] 1,
       .attempt 0 "e1@x.com" 1 true] := by
  decide

/-- C6 counterexample: with an auth token configured and no
`Authorization` header at all, a POST to the bulk dispatch endpoint is not
answered with 401 — the handler performs no auth check and the full
dispatch run executes, returning `200` with `sent = 1`. -/
theorem C6_counterexample_bulk_no_auth :
    envWithToken.apiAuthToken = some "sekret" ∧
    (bulkPOST renderStub envWithToken alwaysOk
      ⟨.str "a@x.com", none, none, none⟩).status = 200 ∧
    (bulkPOST renderStub envWithToken alwaysOk
      ⟨.str "a@x.com", none, none, none⟩).status ≠ 401 ∧
    (bulkPOST renderStub envWithToken alwaysOk
      ⟨.str "a@x.com", none, none, none⟩).sent = some 1 := by
  decide

/-- C7 counterexample: the string `"@"` is admitted to the normalized
list by the code's `includes("@")` check, yet it violates the claimed
invariant "exactly one `@` preceded and followed by non-empty
segments". -/
theorem C7_counterexample_at_sign_only :
    "@" ∈ normalizeEmails (.str "@") ∧ specValidAddress "@" = false := by
  decide

/-- C8 counterexample: with two configured accounts and no failures, a run
of two batches uses account 0 for both batches — the credential cursor
does not advance round-robin between batches. -/
theorem C8_counterexample_no_round_robin :
    (smtpAccounts envTwoAccounts).length = 2 ∧
    batchIdxs (bulkPOST renderStub envTwoAccounts alwaysOk
      ⟨.str "a@x.com,b@x.com,c@x.com,d@x.com", none, none, none⟩).events = [0, 0] := by
  decide

/-- C9: with batch size 2 (hard-coded), 5 valid recipients and a single
always-succeeding credential, the run forms exactly 3 batches and the
pacing delay occurs exactly between batch 1 and batch 2 and between
batch 2 and batch 3 — not before the first batch and not after the
last. -/
theorem C9_pacing :
    (bulkPOST renderStub envOneAccount alwaysOk
      ⟨.str "a@x.com,b@x.com,c@x.com,d@x.com,e@x.com", none, none, none⟩).events =
      [.batch [(0, "a@x.com"), (1, "b@x.com")] 0,
       .attempt 0 "a@x.com" 0 true, .attempt 1 "b@x.com" 0 true,
       .delay,
       .batch [(2, "c@x.com"), (3, "d@x.com")] 0,
       .attempt 2 "c@x.com" 0 true, .attempt 3 "d@x.com" 0 true,
       .delay,
       .batch [(4, "e@x.com")] 0,
       .attempt 4 "e@x.com" 0 true] ∧
    (batchIdxs (bulkPOST renderStub envOneAccount alwaysOk
      ⟨.str "a@x.com,b@x.com,c@x.com,d@x.com,e@x.com", none, none, none⟩).events).length = 3 ∧
    ((bulkPOST renderStub envOneAccount alwaysOk
      ⟨.str "a@x.com,b@x.com,c@x.com,d@x.com,e@x.com", none, none, none⟩).events.filter
        (fun ev => ev = Event.delay)).length = 2 := by
  decide

theorem attemptIdxs_nil (i : Nat) : attemptIdxs i [] = [] := rfl

theorem attemptIdxs_append (i : Nat) (l1 l2 : List Event) :
    attemptIdxs i (l1 ++ l2) = attemptIdxs i l1 ++ attemptIdxs i l2 := by
  simp [attemptIdxs, List.filterMap_append]

theorem attemptIdxs_cons_batch (i : Nat) (l : List (Nat × String)) (a : Nat)
    (evs : List Event) :
    attemptIdxs i (.batch l a :: evs) = attemptIdxs i evs := by
  simp [attemptIdxs, List.filterMap_cons]

theorem attemptIdxs_cons_delay (i : Nat) (evs : List Event) :
    attemptIdxs i (.delay :: evs) = attemptIdxs i evs := by
  simp [attemptIdxs, List.filterMap_cons]

theorem attemptIdxs_cons_attempt (i j : Nat) (e : String) (a : Nat) (s : Bool)
    (evs : List Event) :
    attemptIdxs i (.attempt j e a s :: evs) =
      if j = i then a :: attemptIdxs i evs else attemptIdxs i evs := by
  by_cases hji : j = i
  · rw [if_pos hji]
    simp [attemptIdxs, List.filterMap_cons, hji]
  · rw [if_neg hji]
    simp [attemptIdxs, List.filterMap_cons, hji]

theorem batchIdxs_nil : batchIdxs [] = [] := rfl

theorem batchIdxs_append (l1 l2 : List Event) :
    batchIdxs (l1 ++ l2) = batchIdxs l1 ++ batchIdxs l2 := by
  simp [batchIdxs, List.filterMap_append]

theorem batchIdxs_cons_attempt (j : Nat) (e : String) (a : Nat) (s : Bool)
    (evs : List Event) :
    batchIdxs (.attempt j e a s :: evs) = batchIdxs evs := by
  simp [batchIdxs, List.filterMap_cons]

theorem batchIdxs_cons_batch (l : List (Nat × String)) (a : Nat)
    (evs : List Event) :
    batchIdxs (.batch l a :: evs) = a :: batchIdxs evs := by
  simp [batchIdxs, List.filterMap_cons]

theorem batchIdxs_cons_delay (evs : List Event) :
    batchIdxs (.delay :: evs) = batchIdxs evs := by
  simp [batchIdxs, List.filterMap_cons]

/-- Every event emitted by the inner batch loop is a delivery attempt. -/
theorem processBatch_evs_batchIdxs (ok : Nat → String → Bool) (n idx : Nat) :
    ∀ l : List (Nat × String), batchIdxs (processBatch ok n idx l).evs = [] := by
  intro l
  induction l with
  | nil => rfl
  | cons hd tl ih =>
    obtain ⟨i, e⟩ := hd
    by_cases hok : ok idx e
    · simp only [processBatch, hok, if_pos]
      rw [batchIdxs_cons_attempt]
      exact ih
    · by_cases hrot : idx < n - 1
      · simp only [processBatch, hok, hrot]
        simp [batchIdxs, List.filterMap_cons]
      · simp only [processBatch, hok, hrot, Bool.false_eq_true, if_false]
        rw [batchIdxs_cons_attempt]
        exact ih

/-- With a delivery oracle that always succeeds, the batch loop never
rotates. -/
theorem processBatch_allOk_requeue (ok : Nat → String → Bool) (n idx : Nat)
    (hok : ∀ i e, ok i e = true) :
    ∀ l : List (Nat × String), (processBatch ok n idx l).requeue = none := by
  intro l
  induction l with
  | nil => rfl
  | cons hd tl ih =>
    obtain ⟨i, e⟩ := hd
    simp only [processBatch, hok idx e, if_pos]
    exact ih

/-- With a delivery oracle that always succeeds, every batch of the run
uses the account index the run started with. -/
theorem runLoopF_batchIdxs_allOk (ok : Nat → String → Bool) (n : Nat)
    (hok : ∀ i e, ok i e = true) :
    ∀ (fuel : Nat) (pending : List (Nat × String)) (idx : Nat),
      ∀ a ∈ batchIdxs (runLoopF ok n fuel pending idx).events, a = idx := by
  intro fuel
  induction fuel with
  | zero =>
    intro pending idx a ha
    simp [runLoopF, batchIdxs] at ha
  | succ fuel ih =>
    intro pending idx a ha
    match pending with
    | [] => simp [runLoopF, batchIdxs] at ha
    | e :: rest0 =>
      rw [runLoopF] at ha
      rw [processBatch_allOk_requeue ok n idx hok] at ha
      rw [processBatch_requeue_none (processBatch_allOk_requeue ok n idx hok _)] at ha
      simp only [batchIdxs_cons_batch, batchIdxs_append,
        processBatch_evs_batchIdxs] at ha
      have hdel : batchIdxs (if ((e :: rest0).drop 2).isEmpty then ([] : List Event)
          else [.delay]) = [] := by
        split
        · rfl
        · rfl
      rw [hdel] at ha
      simp only [List.nil_append, List.mem_cons] at ha
      rcases ha with h1 | h2
      · exact h1
      · exact ih _ _ _ h2

/-- An entry id that is not in the batch is not attempted by the batch. -/
theorem processBatch_aIdx_not_mem (ok : Nat → String → Bool) (n idx i : Nat) :
    ∀ l : List (Nat × String), i ∉ l.map Prod.fst →
      attemptIdxs i (processBatch ok n idx l).evs = [] := by
  intro l
  induction l with
  | nil => intro _; rfl
  | cons hd tl ih =>
    intro hmem
    obtain ⟨j, e⟩ := hd
    simp only [List.map_cons, List.mem_cons, not_or] at hmem
    have hji : ¬ (j = i) := fun hh => hmem.1 hh.symm
    by_cases hok : ok idx e
    · simp only [processBatch, hok, if_pos]
      rw [attemptIdxs_cons_attempt, if_neg hji]
      exact ih (by simpa using hmem.2)
    · by_cases hrot : idx < n - 1
      · simp only [processBatch, hok, hrot, Bool.false_eq_true, if_false, if_pos]
        rw [attemptIdxs_cons_attempt, if_neg hji]
        rfl
      · simp only [processBatch, hok, hrot, Bool.false_eq_true, if_false]
        rw [attemptIdxs_cons_attempt, if_neg hji]
        exact ih (by simpa using hmem.2)

/-- Within one batch every entry is attempted at most once, always with
the batch's account index. -/
theorem processBatch_aIdx (ok : Nat → String → Bool) (n idx i : Nat) :
    ∀ l : List (Nat × String), (l.map Prod.fst).Nodup →
      attemptIdxs i (processBatch ok n idx l).evs = [] ∨
      (attemptIdxs i (processBatch ok n idx l).evs = [idx] ∧ i ∈ l.map Prod.fst) := by
  intro l
  induction l with
  | nil => intro _; exact Or.inl rfl
  | cons hd tl ih =>
    intro hnd
    obtain ⟨j, e⟩ := hd
    simp only [List.map_cons, List.nodup_cons] at hnd
    by_cases hok : ok idx e
    · simp only [processBatch, hok, if_pos]
      rw [attemptIdxs_cons_attempt]
      by_cases hji : j = i
      · rw [if_pos hji]
        subst hji
        rw [processBatch_aIdx_not_mem ok n idx j tl hnd.1]
        exact Or.inr ⟨rfl, by simp⟩
      · rw [if_neg hji]
        rcases ih hnd.2 with h | ⟨h, hm⟩
        · exact Or.inl h
        · exact Or.inr ⟨h, by simp [hm]⟩
    · by_cases hrot : idx < n - 1
      · simp only [processBatch, hok, hrot, Bool.false_eq_true, if_false, if_pos]
        rw [attemptIdxs_cons_attempt]
        by_cases hji : j = i
        · rw [if_pos hji]
          exact Or.inr ⟨rfl, by simp [hji]⟩
        · rw [if_neg hji]
          exact Or.inl rfl
      · simp only [processBatch, hok, hrot, Bool.false_eq_true, if_false]
        rw [attemptIdxs_cons_attempt]
        by_cases hji : j = i
        · rw [if_pos hji]
          subst hji
          rw [processBatch_aIdx_not_mem ok n idx j tl hnd.1]
          exact Or.inr ⟨rfl, by simp⟩
        · rw [if_neg hji]
          rcases ih hnd.2 with h | ⟨h, hm⟩
          · exact Or.inl h
          · exact Or.inr ⟨h, by simp [hm]⟩

/-- A re-queued entry comes from the batch being processed. -/
theorem processBatch_requeue_mem (ok : Nat → String → Bool) (n idx : Nat) :
    ∀ (l : List (Nat × String)) (en : Nat × String),
      (processBatch ok n idx l).requeue = some en → en.1 ∈ l.map Prod.fst := by
  intro l
  induction l with
  | nil => intro en h; simp [processBatch] at h
  | cons hd tl ih =>
    intro en h
    obtain ⟨j, e⟩ := hd
    by_cases hok : ok idx e
    · simp only [processBatch, hok, if_pos] at h
      simpa using Or.inr (ih en h)
    · by_cases hrot : idx < n - 1
      · simp only [processBatch, hok, hrot, Bool.false_eq_true, if_false, if_pos] at h
        have : en = (j, e) := by
          simpa using h.symm
        simp [this]
      · simp only [processBatch, hok, hrot, Bool.false_eq_true, if_false] at h
        simpa using Or.inr (ih en h)

/-- Run invariant: for every entry id, the account indices of its delivery
attempts are strictly increasing and stay within `[idx, n-1]`, and entries
absent from the pending list are never attempted. -/
theorem runLoopF_attemptIdxs (ok : Nat → String → Bool) (n i : Nat) :
    ∀ (fuel : Nat) (pending : List (Nat × String)) (idx : Nat),
      (pending.map Prod.fst).Nodup → idx ≤ n - 1 →
      (∀ a ∈ attemptIdxs i (runLoopF ok n fuel pending idx).events,
        idx ≤ a ∧ a ≤ n - 1) ∧
      List.Chain' (fun a b => a < b)
        (attemptIdxs i (runLoopF ok n fuel pending idx).events) ∧
      (i ∉ pending.map Prod.fst →
        attemptIdxs i (runLoopF ok n fuel pending idx).events = []) := by
  intro fuel
  induction fuel with
  | zero =>
    intro pending idx _ _
    refine ⟨?_, ?_, ?_⟩ <;> simp [runLoopF, attemptIdxs]
  | succ fuel ih =>
    intro pending idx hnd hidx
    match pending with
    | [] =>
      refine ⟨?_, ?_, ?_⟩ <;> simp [runLoopF, attemptIdxs]
    | e :: rest0 =>
      have hids : ((e :: rest0).take 2).map Prod.fst ++
          ((e :: rest0).drop 2).map Prod.fst = (e :: rest0).map Prod.fst := by
        rw [← List.map_append, List.take_append_drop]
      have hnd' : (((e :: rest0).take 2).map Prod.fst ++
          ((e :: rest0).drop 2).map Prod.fst).Nodup := by
        rw [hids]; exact hnd
      obtain ⟨ndb, ndr, hdisj⟩ := List.nodup_append.mp hnd'
      rw [runLoopF]
      rcases hrq : (processBatch ok n idx ((e :: rest0).take 2)).requeue with _ | en
      · have hidx2 := processBatch_requeue_none hrq
        rw [hidx2]
        dsimp only
        have hdel : attemptIdxs i
            (if ((e :: rest0).drop 2).isEmpty then ([] : List Event)
             else [.delay]) = [] := by
          split
          · rfl
          · rfl
        simp only [attemptIdxs_cons_batch, attemptIdxs_append, hdel,
          List.append_nil, List.nil_append]
        obtain ⟨ihb, ihc, ihn⟩ := ih ((e :: rest0).drop 2) idx ndr hidx
        rcases processBatch_aIdx ok n idx i ((e :: rest0).take 2) ndb with hA | ⟨hA, hmem⟩
        · rw [hA, List.nil_append]
          refine ⟨ihb, ihc, ?_⟩
          intro hni
          apply ihn
          intro hmm
          apply hni
          rw [← hids]
          exact List.mem_append_right _ hmm
        · rw [hA]
          have hR : attemptIdxs i
              (runLoopF ok n fuel ((e :: rest0).drop 2) idx).events = [] :=
            ihn (fun hmm => hdisj hmem hmm)
          rw [hR]
          refine ⟨?_, ?_, ?_⟩
          · intro a ha
            simp only [List.cons_append, List.nil_append, List.mem_singleton] at ha
            subst ha
            exact ⟨Nat.le_refl _, hidx⟩
          · simp
          · intro hni
            exfalso
            apply hni
            rw [← hids]
            exact List.mem_append_left _ hmem
      · obtain ⟨hidx2, hlt⟩ := processBatch_requeue_some hrq
        rw [hidx2]
        dsimp only
        simp only [attemptIdxs_cons_batch, attemptIdxs_append, attemptIdxs_cons_delay]
        have hen1 : en.1 ∈ ((e :: rest0).take 2).map Prod.fst :=
          processBatch_requeue_mem ok n idx _ en hrq
        have hnd2 : ((en :: (e :: rest0).drop 2).map Prod.fst).Nodup := by
          simp only [List.map_cons, List.nodup_cons]
          exact ⟨fun hmm => hdisj hen1 hmm, ndr⟩
        have hidx1 : idx + 1 ≤ n - 1 := by omega
        obtain ⟨ihb, ihc, ihn⟩ := ih (en :: (e :: rest0).drop 2) (idx + 1) hnd2 hidx1
        rcases processBatch_aIdx ok n idx i ((e :: rest0).take 2) ndb with hA | ⟨hA, hmem⟩
        · rw [hA, List.nil_append]
          refine ⟨?_, ihc, ?_⟩
          · intro a ha
            obtain ⟨h1, h2⟩ := ihb a ha
            exact ⟨by omega, h2⟩
          · intro hni
            apply ihn
            simp only [List.map_cons, List.mem_cons, not_or]
            constructor
            · intro hie
              apply hni
              rw [← hids]
              exact List.mem_append_left _ (hie ▸ hen1)
            · intro hmm
              apply hni
              rw [← hids]
              exact List.mem_append_right _ hmm
        · rw [hA]
          refine ⟨?_, ?_, ?_⟩
          · intro a ha
            simp only [List.cons_append, List.nil_append, List.mem_cons] at ha
            rcases ha with rfl | ha
            · exact ⟨Nat.le_refl a, hidx⟩
            · obtain ⟨h1, h2⟩ := ihb a ha
              exact ⟨by omega, h2⟩
          · simp only [List.cons_append, List.nil_append]
            refine List.chain'_cons'.mpr ⟨?_, ihc⟩
            intro h hh
            have hmem2 : h ∈ attemptIdxs i
                (runLoopF ok n fuel (en :: (e :: rest0).drop 2) (idx + 1)).events :=
              List.mem_of_mem_head? hh
            obtain ⟨h1, _⟩ := ihb h hmem2
            omega
          · intro hni
            exfalso
            apply hni
            rw [← hids]
            exact List.mem_append_left _ hmem

/-- A duplicate-free list of naturals all below `n` has at most `n`
elements. -/
theorem nodup_lt_length_le (l : List Nat) (n : Nat) (hnd : l.Nodup)
    (hlt : ∀ a ∈ l, a < n) : l.length ≤ n := by
  have h1 : l.toFinset ⊆ Finset.range n := by
    intro a ha
    simp only [List.mem_toFinset] at ha
    simpa [Finset.mem_range] using hlt a ha
  have h2 := Finset.card_le_card h1
  rw [Finset.card_range] at h2
  rwa [List.toFinset_card_of_nodup hnd] at h2

/-- C4 (amended): per entry of the normalized list (one entry per
occurrence, since normalization keeps duplicates), no entry is attempted
twice with the same account and each entry is attempted at most
`|credential pool|` times: the account indices of the attempts for any
ghost id are pairwise distinct and number at most the configured account
count. -/
theorem C4_rotation_bound_per_entry (render : MarketingProps → String)
    (env : Env) (ok : Nat → String → Bool) (req : BulkRequest) (i : Nat) :
    (attemptIdxs i (bulkPOST render env ok req).events).Nodup ∧
    (attemptIdxs i (bulkPOST render env ok req).events).length ≤
      (smtpAccounts env).length := by
  simp only [bulkPOST]
  split
  · simp [attemptIdxs]
  · split
    · simp [attemptIdxs]
    · split
      · simp [attemptIdxs]
      · rename_i hne
        have hn : 1 ≤ (smtpAccounts env).length := by
          rcases hsa : smtpAccounts env with _ | ⟨c, cs⟩
          · exfalso; apply hne; rw [hsa]; rfl
          · simp [hsa]
        have hnd : (((normalizeEmails req.emails).enum).map Prod.fst).Nodup := by
          rw [List.enum_map_fst]
          exact List.nodup_range _
        obtain ⟨hb, hc, _⟩ := runLoopF_attemptIdxs ok (smtpAccounts env).length i
          ((normalizeEmails req.emails).enum.length * ((smtpAccounts env).length + 1) +
            ((smtpAccounts env).length + 1))
          ((normalizeEmails req.emails).enum) 0 hnd (Nat.zero_le _)
        simp only [runEmails]
        have hnodup : (attemptIdxs i
            (runLoopF ok (smtpAccounts env).length
              ((normalizeEmails req.emails).enum.length * ((smtpAccounts env).length + 1) +
                ((smtpAccounts env).length + 1))
              ((normalizeEmails req.emails).enum) 0).events).Nodup := by
          have hp := List.chain'_iff_pairwise.mp hc
          exact hp.imp Nat.ne_of_lt
        refine ⟨hnodup, ?_⟩
        apply nodup_lt_length_le _ _ hnodup
        intro a ha
        obtain ⟨_, h2⟩ := hb a ha
        omega

/-- C5 (amended): on a delivery failure with another account available,
the failing account's index is abandoned, the recipient is re-queued at
the head of the list and retried as the first element of the next batch
with the next account — but only after the inter-batch pacing delay
(`Event.delay` separates the failed attempt from the retry, because the
re-queued email keeps `emailList` non-empty). -/
theorem C5_rotation_retry_after_delay (ok : Nat → String → Bool) (n : Nat)
    (e en : Nat × String) (rest0 : List (Nat × String)) (idx : Nat)
    (h : (processBatch ok n idx ((e :: rest0).take 2)).requeue = some en) :
    (runLoop ok n (e :: rest0) idx).events =
      .batch ((e :: rest0).take 2) idx ::
        ((processBatch ok n idx ((e :: rest0).take 2)).evs ++
          .delay :: (runLoop ok n (en :: (e :: rest0).drop 2) (idx + 1)).events) := by
  obtain ⟨h1, h2⟩ := processBatch_requeue_some h
  have hL : runLoop ok n (e :: rest0) idx =
      runLoopF ok n (((e :: rest0).length * (n + 1) + n) + 1) (e :: rest0) idx := by
    have hgen := runEmails_eq_runLoop ok n (e :: rest0) idx
    unfold runEmails at hgen
    have hK : (e :: rest0).length * (n + 1) + (n + 1) =
        ((e :: rest0).length * (n + 1) + n) + 1 := by omega
    rw [hK] at hgen
    exact hgen.symm
  rw [hL, runLoopF]
  rw [h]
  simp only [h1]
  have hrec : runLoopF ok n ((e :: rest0).length * (n + 1) + n)
      (en :: (e :: rest0).drop 2) (idx + 1) =
      runLoop ok n (en :: (e :: rest0).drop 2) (idx + 1) := by
    apply runLoopF_eq_runLoop
    have hm := measure_dec_some rest0.length n idx h2
    simp only [List.length_cons, List.length_drop]
    omega
  rw [hrec]

/-- Witness for `C5_rotation_retry_after_delay` at a concrete rotation. -/
theorem C5_rotation_retry_after_delay_witness :
    (processBatch failE1onAcct0 2 0
        ([((0 : Nat), "e1@x.com"), (1, "e2@x.com")].take 2)).requeue =
      some (0, "e1@x.com") ∧
    (runLoop failE1onAcct0 2 [((0 : Nat), "e1@x.com"), (1, "e2@x.com")] 0).events =
      .batch ([((0 : Nat), "e1@x.com"), (1, "e2@x.com")].take 2) 0 ::
        ((processBatch failE1onAcct0 2 0
            ([((0 : Nat), "e1@x.com"), (1, "e2@x.com")].take 2)).evs ++
          .delay :: (runLoop failE1onAcct0 2
            ((0, "e1@x.com") :: [((0 : Nat), "e1@x.com"), (1, "e2@x.com")].drop 2) 1).events) :=
  ⟨by decide,
   C5_rotation_retry_after_delay failE1onAcct0 2 (0, "e1@x.com") (0, "e1@x.com")
     [(1, "e2@x.com")] 0 (by decide)⟩

/-- C6 (amended): the bearer-token gating lives on the single-send
endpoint `/api/send-email2`, not on the bulk dispatch endpoint: when an
auth token is configured there, a missing or mismatched `Authorization`
header is answered `401 Unauthorized` before any field validation or
delivery work. -/
theorem C6_auth_gating_send_email2 (env : Env) (deliverOk : Bool)
    (req : SendRequest) (t : String)
    (htok : env.apiAuthToken = some t)
    (hmis : req.authHeader ≠ some ("Bearer " ++ t)) :
    sendEmail2POST env deliverOk req = ⟨401, false, false⟩ := by
  unfold sendEmail2POST
  rw [htok]
  simp [hmis]

/-- Witness for `C6_auth_gating_send_email2` with a configured token and
an absent header. -/
theorem C6_auth_gating_send_email2_witness :
    envWithToken.apiAuthToken = some "sekret" ∧
    (none : Option String) ≠ some ("Bearer " ++ "sekret") ∧
    sendEmail2POST envWithToken true
        ⟨none, some "a@x.com", some "subj", some "<p>hi</p>", none⟩ =
      ⟨401, false, false⟩ :=
  ⟨rfl, by decide, C6_auth_gating_send_email2 _ _ _ _ rfl (by decide)⟩

/-- C7 (amended): every address admitted to the normalized list contains
at least one `@` somewhere (the code checks only `includes("@")`, not the
claimed exactly-one-`@` shape); entries failing this check are silently
dropped by the filter rather than reported. -/
theorem C7_admitted_contains_at (inp : EmailsInput) (e : String)
    (h : e ∈ normalizeEmails inp) : jsContainsAt e = true := by
  cases inp with
  | missing => simp [normalizeEmails] at h
  | str s =>
    simp only [normalizeEmails, List.mem_filter] at h
    exact h.2
  | arr l =>
    simp only [normalizeEmails, List.mem_filter] at h
    exact h.2

/-- Witness for `C7_admitted_contains_at` on a concrete admitted
address. -/
theorem C7_admitted_contains_at_witness :
    "a@x.com" ∈ normalizeEmails (.str "a@x.com,bad") ∧
    jsContainsAt "a@x.com" = true :=
  ⟨by decide, C7_admitted_contains_at (.str "a@x.com,bad") "a@x.com" (by decide)⟩

/-- C8 (amended): each batch uses the account at the current cursor, and
the cursor advances only when a delivery failure triggers rotation — it
never cycles round-robin between batches; with no failures every batch of
every run uses account 0. -/
theorem C8_cursor_fixed_without_failure (render : MarketingProps → String)
    (env : Env) (ok : Nat → String → Bool) (req : BulkRequest)
    (hok : ∀ i e, ok i e = true) :
    ∀ a ∈ batchIdxs (bulkPOST render env ok req).events, a = 0 := by
  intro a ha
  simp only [bulkPOST] at ha
  split at ha
  · simp [batchIdxs] at ha
  · split at ha
    · simp [batchIdxs] at ha
    · split at ha
      · simp [batchIdxs] at ha
      · simp only [runEmails] at ha
        exact runLoopF_batchIdxs_allOk ok _ hok _ _ _ a ha

/-- Witness for `C8_cursor_fixed_without_failure` on a concrete
two-account, all-success run. -/
theorem C8_cursor_fixed_without_failure_witness :
    (∀ i e, alwaysOk i e = true) ∧
    ∀ a ∈ batchIdxs (bulkPOST renderStub envTwoAccounts alwaysOk
      ⟨.str "a@x.com,b@x.com,c@x.com,d@x.com", none, none, none⟩).events, a = 0 :=
  ⟨fun _ _ => rfl,
   C8_cursor_fixed_without_failure _ _ _ _ (fun _ _ => rfl)⟩

/-- A `sendMail` payload always carries the fixed subject and the markup
rendered from the default marketing props. -/
theorem attemptMessage_fields (render : MarketingProps → String)
    (accounts : List Credential) (ev : Event) (m : Message)
    (h : attemptMessage render accounts ev = some m) :
    m.subject = bulkSubject ∧ m.html = render defaultMarketingProps := by
  cases ev with
  | attempt j e a s =>
    simp only [attemptMessage, Option.some.injEq] at h
    subst h
    exact ⟨rfl, rfl⟩
  | batch l a => simp [attemptMessage] at h
  | delay => simp [attemptMessage] at h

/-- C10: the bulk handler reads only the `emails` field of the request —
two requests agreeing on `emails` produce identical outcomes (same
response, same trace, same outgoing messages) under the same environment
and delivery outcomes, whatever their `subject`, `data` or
`Authorization` fields; and every outgoing message carries the fixed
subject "New Investment Opportunity" and the markup rendered from
`MarketingTemplate` with its default props. -/
theorem C10_ignores_subject_and_data (render : MarketingProps → String)
    (env : Env) (ok : Nat → String → Bool) (r1 r2 : BulkRequest)
    (h : r1.emails = r2.emails) :
    bulkPOST render env ok r1 = bulkPOST render env ok r2 ∧
    ∀ m ∈ (bulkPOST render env ok r1).messages,
      m.subject = bulkSubject ∧ m.html = render defaultMarketingProps := by
  constructor
  · unfold bulkPOST
    rw [h]
  · intro m hm
    simp only [bulkPOST] at hm
    split at hm
    · simp at hm
    · split at hm
      · simp at hm
      · split at hm
        · simp at hm
        · simp only [List.mem_filterMap] at hm
          obtain ⟨ev, _, hev⟩ := hm
          exact attemptMessage_fields _ _ _ _ hev

/-- Witness for `C10_ignores_subject_and_data`: two requests with the
same `emails` but different `subject`, `data` and `Authorization`. -/
theorem C10_ignores_subject_and_data_witness :
    (BulkRequest.mk (.str "a@x.com,b@y.com") (some "S1")
        (some ⟨some "T1", some "M1", none, none⟩) none).emails =
      (BulkRequest.mk (.str "a@x.com,b@y.com") none
        (some ⟨some "T2", none, some "L", some "C"⟩) (some "Bearer zzz")).emails ∧
    (bulkPOST renderStub envOneAccount alwaysOk
        (BulkRequest.mk (.str "a@x.com,b@y.com") (some "S1")
          (some ⟨some "T1", some "M1", none, none⟩) none) =
      bulkPOST renderStub envOneAccount alwaysOk
        (BulkRequest.mk (.str "a@x.com,b@y.com") none
          (some ⟨some "T2", none, some "L", some "C"⟩) (some "Bearer zzz")) ∧
     ∀ m ∈ (bulkPOST renderStub envOneAccount alwaysOk
        (BulkRequest.mk (.str "a@x.com,b@y.com") (some "S1")
          (some ⟨some "T1", some "M1", none, none⟩) none)).messages,
       m.subject = bulkSubject ∧ m.html = renderStub defaultMarketingProps) :=
  ⟨rfl, C10_ignores_subject_and_data _ _ _ _ _ rfl⟩

end Secureme
